import Mathlib

/-!
Verification of the species-link engine of the bioline processor
(`src/species_link.py`).

The development shallowly embeds the pure string-processing core of the
module: the link formatter (`get_species_link` and its shape builders), the
recognizer `is_species_link`, the normalization helper `remove_blank_chars`,
the full-name occurrence matcher and right-to-left replacement loop of
`insert_species_links`, the `genus_to_species` bookkeeping shared by the
title and abstract passes, and the `master_reg` pattern builder of the
genus back-reference pass.

Python strings are modelled as `String`/`List Char`; Python dicts that the
code uses (`genus_to_species[k]`, insertion ordered, string keys, list
values) are modelled as insertion-ordered association lists; exceptions
(`IndexError`, `re.error`) are modelled with `Except`.
-/

/-! ### Python string primitives used by the module -/

/-- The whitespace characters Python's `str.split()` (no argument) splits on. -/
def pyIsSpace (c : Char) : Bool :=
  c == ' ' || c == '\t' || c == '\n' || c == '\r' || c == '\x0b' || c == '\x0c'

/-- Helper for `wsTokens`: `cur` is the (reversed) non-whitespace run read so
far. -/
def wsTokensAux : List Char → List Char → List (List Char)
  | cur, [] => if cur.isEmpty then [] else [cur.reverse]
  | cur, c :: r =>
    if pyIsSpace c then
      if cur.isEmpty then wsTokensAux [] r else cur.reverse :: wsTokensAux [] r
    else wsTokensAux (c :: cur) r

/-- Tokens of Python's `str.split()`: maximal runs of non-whitespace, empty
tokens dropped. -/
def wsTokens (l : List Char) : List (List Char) :=
  wsTokensAux [] l

/-- Python `link.split()`. -/
def pySplitWS (s : String) : List String :=
  (wsTokens s.data).map String.mk

/-- Python `species.split(' ')`: split on every single space, keeping empty
pieces (`"a  b".split(' ') == ['a', '', 'b']`, `"".split(' ') == ['']`). -/
def splitOnSpace : List Char → List (List Char)
  | [] => [[]]
  | c :: r =>
    if c = ' ' then [] :: splitOnSpace r
    else
      match splitOnSpace r with
      | [] => [[c]]
      | h :: t => (c :: h) :: t

/-- Python's single-pass `text.replace("  ", " ")`: scans left to right,
replacing non-overlapping occurrences of two spaces by one. -/
def pyReplaceDD : List Char → List Char
  | [] => []
  | [c] => [c]
  | c1 :: c2 :: rest =>
    if c1 = ' ' ∧ c2 = ' ' then ' ' :: pyReplaceDD rest
    else c1 :: pyReplaceDD (c2 :: rest)

/-- No two adjacent spaces occur (Python `'  ' not in text`). -/
def noDoubleSpace : List Char → Bool
  | [] => true
  | [_] => true
  | c1 :: c2 :: rest => !(c1 == ' ' && c2 == ' ') && noDoubleSpace (c2 :: rest)

/-- Normal form of the loop `while '  ' in text: text = text.replace('  ', ' ')`
in `remove_blank_chars` (src/species_link.py lines 236-237): the loop repeats
the two-space replacement until no two adjacent spaces remain, i.e. until
every maximal run of spaces has been collapsed to a single space, leaving all
other characters untouched in order.  This function computes that (unique)
fixed point directly; `prevSpace` records whether the previously emitted
character was a space. -/
def squeezeAux : Bool → List Char → List Char
  | _, [] => []
  | prevSpace, c :: r =>
    if c = ' ' then
      if prevSpace then squeezeAux true r else ' ' :: squeezeAux true r
    else c :: squeezeAux false r

/-- Collapse every maximal run of spaces to a single space. -/
def squeezeSpaces (l : List Char) : List Char :=
  squeezeAux false l

/-- Embedding of `remove_blank_chars` (src/species_link.py lines 223-238): newlines become
spaces, then runs of several spaces collapse to one. -/
def remove_blank_chars (text : String) : String :=
  String.mk (squeezeSpaces (text.data.map (fun c => if c = '\n' then ' ' else c)))

/-! ### The link formatter (src/species_link.py lines 259-416)

The shape builders index `tokens[0]`, `tokens[1]`, ... ; the dispatcher only
calls them with lists long enough for every access, so the embeddings use
`getD` with a default that is never read on those call sites. -/

/-- Embedding of `genus_spp` (lines 340-347). -/
def genus_spp (tokens : List String) : String :=
  let genus := tokens.getD 0 ""
  "<taxon genus=\"" ++ genus ++ "\" species=\"\" sub-prefix=\"\" sub-species=\"\"><sp>" ++
    genus ++ "</sp></taxon>"

/-- Embedding of `genus_species` (lines 350-357). -/
def genus_species (tokens : List String) : String :=
  let genus := tokens.getD 0 ""
  let species := tokens.getD 1 ""
  "<taxon genus=\"" ++ genus ++ "\" species=\"" ++ species ++
    "\" sub-prefix=\"\" sub-species=\"\"><sp>" ++ genus ++ "</sp> <sp>" ++ species ++
    "</sp></taxon>"

/-- Embedding of `genus_species_subprefix_subspecies` (lines 370-378). -/
def genus_species_subprefix_subspecies (tokens : List String) : String :=
  let genus := tokens.getD 0 ""
  let species := tokens.getD 1 ""
  let subp := tokens.getD 2 ""
  let subspecies := tokens.getD 3 ""
  "<taxon genus=\"" ++ genus ++ "\" species=\"" ++ species ++ "\" sub-prefix=\"" ++ subp ++
    "\" sub-species=\"" ++ subspecies ++ "\"><sp>" ++ genus ++ "</sp> <sp>" ++ species ++
    "</sp> " ++ subp ++ " <sp>" ++ subspecies ++ "</sp></taxon>"

/-- Embedding of `genus_species_subspecies` (lines 360-367): delegates to the four-token
shape with an empty sub-prefix and then runs Python's
`.replace("  ", " ")` over the whole result. -/
def genus_species_subspecies (tokens : List String) : String :=
  String.mk (pyReplaceDD (genus_species_subprefix_subspecies
    [tokens.getD 0 "", tokens.getD 1 "", "", tokens.getD 2 ""]).data)

/-- Embedding of `genus_PARgenusPAR_subspecies` (lines 381-391). -/
def genus_PARgenusPAR_subspecies (tokens : List String) : String :=
  let genus := tokens.getD 0 ""
  let t1 := tokens.getD 1 ""
  let species := String.mk ((t1.data.drop 1).take (t1.data.length - 2))
  let subspecies := tokens.getD 2 ""
  "<taxon genus=\"" ++ genus ++ "\" species=\"" ++ species ++
    "\" sub-prefix=\"\" sub-species=\"" ++ subspecies ++ "\"><sp>" ++ genus ++ "</sp> <sp>" ++
    t1 ++ "</sp> <sp>" ++ subspecies ++ "</sp></taxon>"

/-- Embedding of `genus_PARnamePAR_species` (lines 394-402). -/
def genus_PARnamePAR_species (tokens : List String) : String :=
  let genus := tokens.getD 0 ""
  let name := tokens.getD 1 ""
  let species := tokens.getD 2 ""
  "<taxon genus=\"" ++ genus ++ "\" species=\"" ++ species ++
    "\" sub-prefix=\"\" sub-species=\"\"><sp>" ++ genus ++ "</sp> " ++ name ++ " <sp>" ++
    species ++ "</sp></taxon>"

/-- Embedding of `genus_species_MERGE_subspecies` (lines 405-416). -/
def genus_species_MERGE_subspecies (tokens : List String) : String :=
  let genus := tokens.getD 0 ""
  let species := tokens.getD 1 ""
  let merge := String.intercalate " " (tokens.drop 2).dropLast
  let subspecies := (tokens.getLast?).getD ""
  "<taxon genus=\"" ++ genus ++ "\" species=\"" ++ species ++
    "\" sub-prefix=\"\" sub-species=\"" ++ subspecies ++ "\"><sp>" ++ genus ++ "</sp> <sp>" ++
    species ++ "</sp> " ++ merge ++ " <sp>" ++ subspecies ++ "</sp></taxon>"

/-- Embedding of `is_enclosed_match` (lines 307-324): `s2` equals `s1` surrounded by one
arbitrary leading and one arbitrary trailing character, case-insensitively. -/
def is_enclosed_match (s1 s2 : String) : Bool :=
  if s2.data.length ≠ s1.data.length + 2 then false
  else String.mk (s1.data.map Char.toLower) ==
    String.mk (((s2.data.drop 1).take (s2.data.length - 2)).map Char.toLower)

/-- Embedding of `is_parenthetical` (lines 326-334). -/
def is_parenthetical (s : String) : Bool :=
  if s.data.length < 2 then false
  else s.data.head? == some '(' && s.data.getLast? == some ')'

/-- Body of `get_species_link` (lines 259-305) after `tokens = link.split()`:
the dispatch on token count and shape.  Branches that assign nothing fall
through to the unaltered `link`. -/
def linkDispatch (link : String) (tokens : List String) : String :=
  if tokens.length == 1 then genus_spp tokens
  else if tokens.length == 2 then
    if tokens.getD 1 "" == "sp." || tokens.getD 1 "" == "spp." then genus_spp tokens
    else genus_species tokens
  else if tokens.length == 3 then
    if !(tokens.getD 1 "" == "sp." || tokens.getD 1 "" == "spp.") then
      if is_enclosed_match (tokens.getD 0 "") (tokens.getD 1 "") then
        genus_PARgenusPAR_subspecies tokens
      else if is_parenthetical (tokens.getD 1 "") then genus_PARnamePAR_species tokens
      else genus_species_subspecies tokens
    else link
  else if tokens.length == 4 then genus_species_subprefix_subspecies tokens
  else if 4 < tokens.length then genus_species_MERGE_subspecies tokens
  else link

/-- Embedding of `get_species_link` (lines 259-305). -/
def get_species_link (link : String) : String :=
  linkDispatch link (pySplitWS link)

/-! ### The recognizer `is_species_link` (src/species_link.py lines 212-221)

The source checks `re.match(r'^<taxon genus=".*" species=".*" sub-prefix=".*"
sub-species=".*">.*<\/taxon>$', text)`.  Outside character classes `.` matches
every character except `'\n'`, so with backtracking the regex accepts exactly
the strings that, after removing an optional trailing newline (`$` also
matches just before a final newline), contain no newline, start with
`<taxon genus="`, end with `</taxon>`, and contain the four marker literals
`" species="`, `" sub-prefix="`, `" sub-species="`, `">` in order between
them, with arbitrary (possibly empty, possibly quote- or tag-containing)
filler in the gaps.  The executable embedding below searches for each marker
literal at its leftmost position; this is complete for such a sequence of
literal searches (proved in `scanLits_complete` below). -/

/-- Literal `<taxon genus="`, the anchored head of the recognizer's pattern. -/
def tagOpenChars : List Char := "<taxon genus=\"".data

/-- Literal `" species="`. -/
def speciesMark : List Char := "\" species=\"".data

/-- Literal `" sub-prefix="`. -/
def subPrefMark : List Char := "\" sub-prefix=\"".data

/-- Literal `" sub-species="`. -/
def subSpecMark : List Char := "\" sub-species=\"".data

/-- Literal `">`, closing the attribute list. -/
def closeAngleMark : List Char := "\">".data

/-- Literal `</taxon>` (spelled `<\/taxon>` in the pattern). -/
def taxonCloseChars : List Char := "</taxon>".data

/-- Leftmost occurrence of `pat` in a list; returns the suffix after it. -/
def firstOccSuffix (pat : List Char) : List Char → Option (List Char)
  | [] => if pat.isEmpty then some [] else none
  | c :: rest =>
    if pat.isPrefixOf (c :: rest) then some ((c :: rest).drop pat.length)
    else firstOccSuffix pat rest

/-- Search for each literal in turn, each strictly after the previous one,
returning the suffix after the last one. -/
def scanLits : List (List Char) → List Char → Option (List Char)
  | [], s => some s
  | p :: ps, s =>
    match firstOccSuffix p s with
    | none => none
    | some r => scanLits ps r

/-- No newline character occurs (the region `.*` can cover). -/
def noNewline (s : List Char) : Bool := s.all (fun c => c ≠ '\n')

/-- The recognizer's work on the match region (everything except the
trailing-newline tolerance of `$`). -/
def islCore (core : List Char) : Bool :=
  noNewline core && tagOpenChars.isPrefixOf core &&
    (match scanLits [speciesMark, subPrefMark, subSpecMark, closeAngleMark]
        (core.drop tagOpenChars.length) with
     | none => false
     | some r => taxonCloseChars.isSuffixOf r)

/-- Embedding of `is_species_link` (lines 212-221).  Python returns the match object
(truthy) or `None` (falsy); the embedding returns the corresponding Bool.
`$` matches at the end of the string or just before a newline that ends it,
so a trailing newline is stripped before the anchored match. -/
def is_species_link (text : String) : Bool :=
  islCore (if text.data.getLast? = some '\n' then text.data.dropLast else text.data)

/-- Proposition that `s` splits as `gap₁ ++ lit₁ ++ gap₂ ++ lit₂ ++ ... ++ gapₖ ++ litₖ ++ tail`
for the given literal list. -/
inductive ChainSplit : List (List Char) → List Char → List Char → Prop
  | nil (t : List Char) : ChainSplit [] t t
  | cons (g p : List Char) {ps : List (List Char)} {rest tail : List Char}
      (h : ChainSplit ps rest tail) : ChainSplit (p :: ps) (g ++ p ++ rest) tail

/-- The language of the recognizer's regex: an optional trailing newline, and
a newline-free core of shape
`<taxon genus="…" species="…" sub-prefix="…" sub-species="…">…</taxon>`
with arbitrary newline-free filler in the five gaps. -/
def RegexLang (t : List Char) : Prop :=
  ∃ core : List Char, (t = core ∨ t = core ++ ['\n']) ∧ noNewline core = true ∧
    ∃ g1 g2 g3 g4 g5 : List Char,
      core = tagOpenChars ++ g1 ++ speciesMark ++ g2 ++ subPrefMark ++ g3 ++
        subSpecMark ++ g4 ++ closeAngleMark ++ g5 ++ taxonCloseChars

/-- A concrete single structured link, used to exhibit that the recognizer
accepts the concatenation of two structured links. -/
def oneLinkStr : String :=
  "<taxon genus=\"A\" species=\"B\" sub-prefix=\"C\" sub-species=\"D\"><sp>A</sp></taxon>"

/-! ### The genus back-reference pattern builder
(src/species_link.py lines 179-191)

For each genus of `genus_to_species[j]` the source builds

    master_reg = r'<taxon genus="' + re.escape(genus) + r'" species="('
    for i in range(len(eps) - 1):
        if i < len(eps) - 1:
            master_reg += re.escape(eps[i]) + '|'
        else:
            master_reg += re.escape(eps[i]) + ')"'

and then calls `re.finditer(master_reg, abstract.text, re.IGNORECASE)`. -/

/-- Python `re.escape`: ASCII letters, digits and `_` are kept, every other
character is preceded by a backslash. -/
def reEscape (s : String) : String :=
  String.mk (s.data.foldr
    (fun c acc => if c.isAlphanum || c == '_' then c :: acc else '\\' :: c :: acc) [])

/-- The `master_reg` pattern built for one genus and its recorded epithet
list (lines 181-186), translated verbatim: the loop index runs over
`range(len(eps) - 1)` and the guard compares `i < len(eps) - 1`. -/
def master_reg_build (genus : String) (eps : List String) : String :=
  (List.range (eps.length - 1)).foldl
    (fun acc i =>
      if i < eps.length - 1 then acc ++ reEscape (eps.getD i "") ++ "|"
      else acc ++ reEscape (eps.getD i "") ++ ")\"")
    ("<taxon genus=\"" ++ reEscape genus ++ "\" species=\"(")

/-! ### The `genus_to_species` bookkeeping of `insert_species_links`
(src/species_link.py lines 38-48, 112-143, 179-209)

`genus_to_species` is a Python list of dicts.  Each dict maps a genus key
(asterisk-prefixed for pseudospecies) to the insertion-ordered list of
epithets seen for it; it is modelled as an insertion-ordered association
list.  The title loop appends a fresh dict per title and mutates the last
element (`genus_to_species[-1]`); the abstract loop sets `j = 0` before
iterating and never changes `j`, so every abstract reads and writes
`genus_to_species[j]` with `j = 0` (an `IndexError` when the list is empty,
i.e. when the document has no title).  After the per-species loop each
abstract runs the genus back-reference pass, which iterates the keys of
`genus_to_species[j]` and calls `re.finditer` on the `master_reg` pattern;
since that pattern always has an unterminated group (see
`master_reg_build`), the pass raises `re.error` as soon as the dict has at
least one key (and every key, once created, immediately receives an
epithet, lines 135-138/140-143). -/

/-- One `genus_to_species[k]` dict. -/
abbrev GDict := List (String × List String)

/-- Python `key in d`. -/
def dictHasKey (d : GDict) (k : String) : Bool :=
  d.any (fun p => p.1 == k)

/-- Python `d[k]` for reading (defaults to `[]`; call sites guard with
`dictHasKey`). -/
def dictGetKey (d : GDict) (k : String) : List String :=
  match d.find? (fun p => p.1 == k) with
  | some p => p.2
  | none => []

/-- Python `d[k].append(v)`. -/
def dictAppendAt (d : GDict) (k v : String) : GDict :=
  d.map (fun p => if p.1 == k then (p.1, p.2 ++ [v]) else p)

/-- Embedding of `re.search(r'.* .*', species)` (lines 55/118): succeeds iff the line
contains a space (the two `.*` may be empty, and `re.search` tries every
start position, so embedded newlines do not matter). -/
def lineHasSpace (line : String) : Bool :=
  line.data.contains ' '

/-- Lines 60-80 / 123-143 for one species-list line that passed the
`lineHasSpace` filter: strip a leading asterisk (recording pseudospecies),
split on single spaces, and record `parts[1]` under the genus key
(`'*' + parts[0]` for pseudospecies, else `parts[0]`), creating the key with
an empty list on first sight and appending the epithet if not yet present.
A line with a space yields at least two parts, so the `getD` defaults are
never read. -/
def recordLineBody (d : GDict) (line : String) : GDict :=
  let pseudo : Bool := line.startsWith "*"
  let species := if pseudo then line.drop 1 else line
  let parts := (splitOnSpace species.data).map String.mk
  let key := if pseudo then "*" ++ parts.getD 0 "" else parts.getD 0 ""
  let ep := parts.getD 1 ""
  let d1 := if dictHasKey d key then d else d ++ [(key, [])]
  if (dictGetKey d1 key).contains ep then d1 else dictAppendAt d1 key ep

/-- One iteration of the title loop (lines 45-48 and 53-80): append a fresh
dict, then for each species line that passes the filter update
`genus_to_species[-1]`.  (The title-text matching does not touch
`genus_to_species`, so it is not part of this state machine.) -/
def titleOne (sl : List String) (g : List GDict) : List GDict :=
  sl.foldl
    (fun acc line =>
      if lineHasSpace line then
        acc.set (acc.length - 1) (recordLineBody ((acc.getLast?).getD []) line)
      else acc)
    (g ++ [([] : GDict)])

/-- The whole title loop, also returning the position of the dict each title
block created and used (always the freshly appended last index). -/
def titlesLoop (sl : List String) : Nat → List GDict → List GDict × List Nat
  | 0, g => (g, [])
  | n + 1, g =>
    let g1 := titleOne sl g
    let (gf, tr) := titlesLoop sl n g1
    (gf, g.length :: tr)

/-- The Python exceptions that the abstract pass can raise. -/
inductive PyErr where
  | indexErr
  | regexErr
deriving DecidableEq

/-- Lines 116-143 for one abstract: for each species line passing the
filter, access `genus_to_species[j]` (raising `IndexError` when `j` is out
of range, i.e. when the list is empty) and record the genus/epithet pair. -/
def abstractSpeciesFold (sl : List String) (j : Nat) (g : List GDict) :
    Except PyErr (List GDict) :=
  sl.foldlM
    (fun acc line =>
      if lineHasSpace line then
        match acc.get? j with
        | none => Except.error PyErr.indexErr
        | some d => Except.ok (acc.set j (recordLineBody d line))
      else Except.ok acc)
    g

/-- One abstract iteration (lines 116-209): the per-species loop, then the
genus back-reference pass, which reads `genus_to_species[j]` (line 179,
`IndexError` when out of range) and, for each key, compiles `master_reg`
whose group is unterminated — so `re.finditer` (line 190) raises `re.error`
as soon as the dict is non-empty.  With an empty dict the key loop runs zero
times and the pass is a no-op. -/
def abstractOne (sl : List String) (j : Nat) (g : List GDict) :
    Except PyErr (List GDict) :=
  match abstractSpeciesFold sl j g with
  | Except.error e => Except.error e
  | Except.ok g1 =>
    match g1.get? j with
    | none => Except.error PyErr.indexErr
    | some d => if d.isEmpty then Except.ok g1 else Except.error PyErr.regexErr

/-- The whole abstract loop (lines 112-209): `j` is initialized to `0` before
the loop and the loop body contains no assignment to `j`, so it is threaded
through unchanged; the returned trace records, per abstract block, which
`genus_to_species` position it read and wrote. -/
def abstractsLoop (sl : List String) (j : Nat) : Nat → List GDict →
    Except PyErr (List GDict × List Nat)
  | 0, g => Except.ok (g, [])
  | n + 1, g =>
    match abstractOne sl j g with
    | Except.error e => Except.error e
    | Except.ok g1 =>
      match abstractsLoop sl j n g1 with
      | Except.error e => Except.error e
      | Except.ok (gf, tr) => Except.ok (gf, j :: tr)

/-- The `genus_to_species` state machine of a whole `insert_species_links`
run over a document with `nT` titles and `nA` abstracts: the title loop,
then the abstract loop with `j = 0` (line 112).  Returns the final dict
list, the per-title access positions and the per-abstract access
positions. -/
def genusStateRun (sl : List String) (nT nA : Nat) :
    Except PyErr (List GDict × List Nat × List Nat) :=
  match abstractsLoop sl 0 nA (titlesLoop sl nT []).1 with
  | Except.error e => Except.error e
  | Except.ok (gf, atr) => Except.ok (gf, (titlesLoop sl nT []).2, atr)

/-! ### The full-name occurrence matcher and replacement loop
(src/species_link.py lines 82-94 and 145-157)

For one species entry the source collects, left to right, the spans of
`re.finditer(re.escape(parts[0]) + r' *\n? *' + re.escape(parts[1]), text,
re.IGNORECASE)` (lines 84-85 / 147-148) and then rewrites the spans right to
left (lines 89-94 / 152-157).  For a genus and an epithet containing neither
spaces nor newlines (tokens of `split(' ')` contain no space, and species
list lines contain no newline), the regex engine's behaviour at one start
position is deterministic: the escaped genus matches literally and
case-insensitively, ` *` consumes the maximal run of spaces, `\n?` one
optional newline, ` *` again the maximal run of spaces, and the escaped
epithet must follow.  Backtracking the greedy quantifiers cannot produce a
different match, because every shorter separator leaves the position on a
space or a newline, and the epithet starts with neither.  `finditer` yields
non-overlapping matches left to right, resuming after each match and
advancing one position after an empty match. -/

/-- Case-insensitive character comparison (`re.IGNORECASE`). -/
def ciEq (a b : Char) : Bool := a.toLower == b.toLower

/-- The pattern (a literal) matches a prefix of the text,
case-insensitively. -/
def matchesPrefixCI : List Char → List Char → Bool
  | [], _ => true
  | _ :: _, [] => false
  | p :: ps, c :: cs => ciEq p c && matchesPrefixCI ps cs

/-- Length of the leading run of spaces (what greedy ` *` consumes). -/
def countSpaces : List Char → Nat
  | [] => 0
  | c :: r => if c = ' ' then countSpaces r + 1 else 0

/-- Length of the separator ` *\n? *` consumes after the genus: the maximal
run of spaces, one optional newline, then again the maximal run of spaces. -/
def sepLen (t1 : List Char) : Nat :=
  countSpaces t1 +
    (if (t1.drop (countSpaces t1)).head? = some '\n' then 1 else 0) +
    countSpaces ((t1.drop (countSpaces t1)).drop
      (if (t1.drop (countSpaces t1)).head? = some '\n' then 1 else 0))

/-- Length of the match of `genus + ' *\n? *' + epithet` anchored at the head
of `t`, if any. -/
def matchLen (g e t : List Char) : Option Nat :=
  if matchesPrefixCI g t then
    if matchesPrefixCI e ((t.drop g.length).drop (sepLen (t.drop g.length))) then
      some (g.length + sepLen (t.drop g.length) + e.length)
    else none
  else none

/-- All spans `re.finditer` yields, with `pos` the absolute position of the
head of the remaining text.  The scan consumes at least one character of the
remaining text per step (a non-empty match advances past its end, everything
else advances one position), so `fuel := t.length` never runs out; the fuel
argument only makes the recursion structural. -/
def findMatchesAux (g e : List Char) : Nat → List Char → Nat → List (Nat × Nat)
  | 0, _, _ => []
  | _, [], _ => []
  | fuel + 1, c :: rest, pos =>
    match matchLen g e (c :: rest) with
    | none => findMatchesAux g e fuel rest (pos + 1)
    | some L =>
      if L = 0 then (pos, pos) :: findMatchesAux g e fuel rest (pos + 1)
      else (pos, pos + L) :: findMatchesAux g e fuel ((c :: rest).drop L) (pos + L)

/-- The spans of all full-name occurrences of the entry in the text. -/
def findMatches (g e : String) (t : List Char) : List (Nat × Nat) :=
  findMatchesAux g.data e.data t.length t 0

/-- Python `text[s:e]` for `s ≤ e ≤ len`. -/
def sliceL (t : List Char) (s e : Nat) : List Char :=
  (t.drop s).take (e - s)

/-- One splice `text = text[:s] + repl + text[e:]` (lines 92/94 and 155/157);
the replacement is computed from the slice of the current text. -/
def spliceStep (repl : Nat → List Char → List Char) (i : Nat) (sp : Nat × Nat)
    (t : List Char) : List Char :=
  t.take sp.1 ++ repl i (sliceL t sp.1 sp.2) ++ t.drop sp.2

/-- The right-to-left replacement loop
`for i in range(len(matches) - 1, -1, -1)` (lines 89-94 / 152-157): the span
with the highest index is spliced first, so the splice for index `i` is
applied to the text in which all later spans have already been replaced. -/
def replaceLoop (repl : Nat → List Char → List Char) (i : Nat) :
    List (Nat × Nat) → List Char → List Char
  | [], t => t
  | sp :: rest, t => spliceStep repl i sp (replaceLoop repl (i + 1) rest t)

/-- Bounds and ordering of a span batch: spans are within `[lo, len]`, each
with start before end, non-overlapping in ascending order. -/
def spansOK : Nat → Nat → List (Nat × Nat) → Bool
  | _, _, [] => true
  | lo, len, sp :: rest =>
    decide (lo ≤ sp.1) && decide (sp.1 ≤ sp.2) && decide (sp.2 ≤ len) &&
      spansOK sp.2 len rest

/-- Left-to-right reading of the replaced text: the chunks of the original
text between the spans, interleaved with the replacements computed on the
original slices. -/
def interleaveFrom (repl : Nat → List Char → List Char) (i pos : Nat) (t : List Char) :
    List (Nat × Nat) → List Char
  | [] => t.drop pos
  | sp :: rest =>
    sliceL t pos sp.1 ++ repl i (sliceL t sp.1 sp.2) ++
      interleaveFrom repl (i + 1) sp.2 t rest

/-- The title-context replacement for match `i` (lines 90-94): the first
match of a non-pseudospecies entry becomes a structured link, every other
match plain italic emphasis. -/
def titleRepl (pseudo : Bool) (i : Nat) (slice : List Char) : List Char :=
  let spec := remove_blank_chars (String.mk slice)
  if i == 0 && !pseudo then (get_species_link spec).data
  else ("<i>" ++ spec ++ "</i>").data

/-- The abstract-context replacement for match `i` (lines 153-157): as in
the title context, but the first match is additionally suppressed when the
normalized match text is a key of `genus_to_species[j]`
(`spec not in genus_to_species[j]`); `keys` is that dict's key list. -/
def abstractRepl (keys : List String) (pseudo : Bool) (i : Nat)
    (slice : List Char) : List Char :=
  let spec := remove_blank_chars (String.mk slice)
  if i == 0 && !pseudo && !(keys.contains spec) then (get_species_link spec).data
  else ("<i>" ++ spec ++ "</i>").data

/-- Lines 82-94: the full-name pass of one species entry over one title
text. -/
def titleFullNamePass (pseudo : Bool) (g e : String) (t : List Char) : List Char :=
  replaceLoop (titleRepl pseudo) 0 (findMatches g e t) t

/-- Lines 145-157: the full-name pass of one species entry over one abstract
text. -/
def abstractFullNamePass (keys : List String) (pseudo : Bool) (g e : String)
    (t : List Char) : List Char :=
  replaceLoop (abstractRepl keys pseudo) 0 (findMatches g e t) t

/-- The behaviour the spec describes for a non-pseudospecies entry: match 0
becomes a structured link, every later match plain italic emphasis. -/
def firstLinkRepl (i : Nat) (slice : List Char) : List Char :=
  let spec := remove_blank_chars (String.mk slice)
  if i == 0 then (get_species_link spec).data else ("<i>" ++ spec ++ "</i>").data

/-- The behaviour the spec describes for a pseudospecies entry: plain italic
emphasis for every match. -/
def italicRepl (_i : Nat) (slice : List Char) : List Char :=
  ("<i>" ++ remove_blank_chars (String.mk slice) ++ "</i>").data

/-- C8: `formatLink(["Brassica","sp."])` and `formatLink(["Brassica","spp."])`
both produce the same output as `formatLink(["Brassica"])`: a genus-only
structured link with empty species, sub-prefix and sub-species attributes,
with the rank marker dropped rather than preserved as connector text. -/
theorem c8_sp_spp_collapse :
    get_species_link "Brassica sp." = get_species_link "Brassica" ∧
    get_species_link "Brassica spp." = get_species_link "Brassica" ∧
    get_species_link "Brassica" =
      "<taxon genus=\"Brassica\" species=\"\" sub-prefix=\"\" sub-species=\"\"><sp>Brassica</sp></taxon>" := by
  refine ⟨?_, ?_, ?_⟩ <;> rfl

/-- C1 (code evaluated at the failing input): for a genus with one recorded
epithet, the genus back-reference pass builds the pattern
`<taxon genus="Brassica" species="(` — the alternation group is opened but
never closed (no `)` appears at all) and the epithet never makes it into the
pattern, because the closing branch of the loop is dead; `re.finditer`
therefore raises `re.error` instead of matching the inserted links.  With two
epithets, the last epithet is likewise dropped and the group is still open. -/
theorem c1_master_reg_unterminated :
    master_reg_build "Brassica" ["oleracea"] = "<taxon genus=\"Brassica\" species=\"(" ∧
    (master_reg_build "Brassica" ["oleracea"]).data.count '(' = 1 ∧
    (master_reg_build "Brassica" ["oleracea"]).data.count ')' = 0 ∧
    master_reg_build "Brassica" ["oleracea", "napus"] =
      "<taxon genus=\"Brassica\" species=\"(oleracea|" ∧
    (master_reg_build "Brassica" ["oleracea", "napus"]).data.count ')' = 0 := by
  refine ⟨by rfl, by decide, by decide, by rfl, by decide⟩

/-- C6 (counterexample): the recognizer accepts the concatenation of two
structured links, although the claim states that it returns false on such a
string. -/
theorem c6_counterexample_two_links :
    is_species_link (oneLinkStr ++ oneLinkStr) = true := by decide

theorem firstOccSuffix_here (pat b : List Char) :
    firstOccSuffix pat (pat ++ b) = some b := by
  cases hs : pat ++ b with
  | nil =>
    rcases List.append_eq_nil.mp hs with ⟨hp, hb⟩
    subst hp; subst hb
    rfl
  | cons c t =>
    have hpre : pat.isPrefixOf (c :: t) = true := by
      rw [List.isPrefixOf_iff_prefix]
      exact hs ▸ List.prefix_append pat b
    simp only [firstOccSuffix, hpre, if_pos]
    rw [← hs, List.drop_left]

theorem firstOccSuffix_sound (pat : List Char) :
    ∀ s r, firstOccSuffix pat s = some r → ∃ a, s = a ++ pat ++ r := by
  intro s
  induction s with
  | nil =>
    intro r h
    simp only [firstOccSuffix] at h
    split at h
    · rename_i hp
      have hpat : pat = [] := by
        cases pat
        · rfl
        · simp [List.isEmpty] at hp
      cases h
      exact ⟨[], by simp [hpat]⟩
    · cases h
  | cons c rest ih =>
    intro r h
    simp only [firstOccSuffix] at h
    split at h
    · rename_i hpre
      rcases List.isPrefixOf_iff_prefix.mp hpre with ⟨t, ht⟩
      cases h
      refine ⟨[], ?_⟩
      rw [List.nil_append, ← ht, List.drop_left]
    · rcases ih r h with ⟨a, ha⟩
      exact ⟨c :: a, by simp [ha]⟩

theorem firstOccSuffix_complete (pat : List Char) :
    ∀ (a b s : List Char), s = a ++ (pat ++ b) →
      ∃ r, firstOccSuffix pat s = some r ∧ b <:+ r := by
  intro a
  induction a with
  | nil =>
    intro b s hs
    subst hs
    exact ⟨b, by simpa using firstOccSuffix_here pat b, List.suffix_refl b⟩
  | cons x a' ih =>
    intro b s hs
    subst hs
    rw [List.cons_append]
    by_cases hpre : pat.isPrefixOf (x :: (a' ++ (pat ++ b))) = true
    · refine ⟨(x :: (a' ++ (pat ++ b))).drop pat.length, ?_, ?_⟩
      · simp only [firstOccSuffix]
        rw [if_pos hpre]
      · have h2 : ((x :: (a' ++ (pat ++ b))).drop pat.length).drop (x :: a').length = b := by
          rw [List.drop_drop, Nat.add_comm]
          show ((x :: a') ++ (pat ++ b)).drop ((x :: a').length + pat.length) = b
          rw [← List.drop_drop, List.drop_left, List.drop_left]
        have hsuf := List.drop_suffix (x :: a').length
          ((x :: (a' ++ (pat ++ b))).drop pat.length)
        rw [h2] at hsuf
        exact hsuf
    · have heq : firstOccSuffix pat (x :: (a' ++ (pat ++ b))) =
          firstOccSuffix pat (a' ++ (pat ++ b)) := by
        simp only [firstOccSuffix]
        rw [if_neg hpre]
      rcases ih b (a' ++ (pat ++ b)) rfl with ⟨r, hr, hb⟩
      exact ⟨r, heq.trans hr, hb⟩

theorem chainSplit_absorb {ps : List (List Char)} {rest tail : List Char} (x : List Char)
    (h : ChainSplit ps rest tail) :
    ∃ tail2, ChainSplit ps (x ++ rest) tail2 ∧ tail <:+ tail2 := by
  cases h with
  | nil => exact ⟨_, ChainSplit.nil _, List.suffix_append _ _⟩
  | cons g p h2 =>
    refine ⟨tail, ?_, List.suffix_refl tail⟩
    have hc := ChainSplit.cons (x ++ g) p h2
    simpa [List.append_assoc] using hc

theorem scanLits_sound :
    ∀ (ps : List (List Char)) (s r : List Char),
      scanLits ps s = some r → ChainSplit ps s r := by
  intro ps
  induction ps with
  | nil =>
    intro s r h
    cases h
    exact ChainSplit.nil _
  | cons p ps' ih =>
    intro s r h
    unfold scanLits at h
    cases hf : firstOccSuffix p s with
    | none => rw [hf] at h; cases h
    | some r0 =>
      rw [hf] at h
      rcases firstOccSuffix_sound p s r0 hf with ⟨a, ha⟩
      exact ha ▸ ChainSplit.cons a p (ih r0 r h)

theorem scanLits_complete :
    ∀ (ps : List (List Char)) (s tail : List Char),
      ChainSplit ps s tail → ∃ r, scanLits ps s = some r ∧ tail <:+ r := by
  intro ps
  induction ps with
  | nil =>
    intro s tail h
    cases h with
    | nil => exact ⟨_, rfl, List.suffix_refl _⟩
  | cons p ps' ih =>
    intro s tail h
    cases h with
    | cons g p h2 =>
      rename_i rest
      rcases firstOccSuffix_complete p g rest (g ++ p ++ rest) (List.append_assoc g p rest)
        with ⟨r0, hf, hsub⟩
      rcases hsub with ⟨x, hx⟩
      rcases chainSplit_absorb x h2 with ⟨tail2, hcs, ht⟩
      rw [hx] at hcs
      rcases ih r0 tail2 hcs with ⟨r, hscan, ht2⟩
      refine ⟨r, ?_, ht.trans ht2⟩
      unfold scanLits
      rw [hf]
      exact hscan

theorem islCore_sound {core : List Char} (h : islCore core = true) :
    noNewline core = true ∧
      ∃ g1 g2 g3 g4 g5 : List Char,
        core = tagOpenChars ++ g1 ++ speciesMark ++ g2 ++ subPrefMark ++ g3 ++
          subSpecMark ++ g4 ++ closeAngleMark ++ g5 ++ taxonCloseChars := by
  unfold islCore at h
  simp only [Bool.and_eq_true] at h
  obtain ⟨⟨h1, h2⟩, h3⟩ := h
  refine ⟨h1, ?_⟩
  rcases List.isPrefixOf_iff_prefix.mp h2 with ⟨rest0, hrest⟩
  have hdrop : core.drop tagOpenChars.length = rest0 := by
    rw [← hrest]; exact List.drop_left _ _
  rw [hdrop] at h3
  cases hscan : scanLits [speciesMark, subPrefMark, subSpecMark, closeAngleMark] rest0 with
  | none => rw [hscan] at h3; cases h3
  | some r =>
    rw [hscan] at h3
    have hcs := scanLits_sound _ _ _ hscan
    cases hcs with
    | cons g1 p1 hcs2 => cases hcs2 with
      | cons g2 p2 hcs3 => cases hcs3 with
        | cons g3 p3 hcs4 => cases hcs4 with
          | cons g4 p4 hcs5 => cases hcs5 with
            | nil =>
              rcases List.isSuffixOf_iff_suffix.mp h3 with ⟨g5, hg5⟩
              refine ⟨g1, g2, g3, g4, g5, ?_⟩
              rw [← hrest, ← hg5]
              simp [List.append_assoc]

theorem islCore_complete {core : List Char} (hnl : noNewline core = true)
    (hdec : ∃ g1 g2 g3 g4 g5 : List Char,
      core = tagOpenChars ++ g1 ++ speciesMark ++ g2 ++ subPrefMark ++ g3 ++
        subSpecMark ++ g4 ++ closeAngleMark ++ g5 ++ taxonCloseChars) :
    islCore core = true := by
  rcases hdec with ⟨g1, g2, g3, g4, g5, hcore⟩
  have hcore2 : core = tagOpenChars ++ (g1 ++ (speciesMark ++ (g2 ++ (subPrefMark ++ (g3 ++
      (subSpecMark ++ (g4 ++ (closeAngleMark ++ (g5 ++ taxonCloseChars))))))))) := by
    rw [hcore]; simp [List.append_assoc]
  have hpre : tagOpenChars.isPrefixOf core = true := by
    rw [List.isPrefixOf_iff_prefix, hcore2]
    exact List.prefix_append _ _
  have hdrop : core.drop tagOpenChars.length = g1 ++ (speciesMark ++ (g2 ++ (subPrefMark ++
      (g3 ++ (subSpecMark ++ (g4 ++ (closeAngleMark ++ (g5 ++ taxonCloseChars)))))))) := by
    rw [hcore2]; exact List.drop_left _ _
  have hcs0 := ChainSplit.cons g1 speciesMark (ChainSplit.cons g2 subPrefMark
    (ChainSplit.cons g3 subSpecMark (ChainSplit.cons g4 closeAngleMark
      (ChainSplit.nil (g5 ++ taxonCloseChars)))))
  have hcs : ChainSplit [speciesMark, subPrefMark, subSpecMark, closeAngleMark]
      (core.drop tagOpenChars.length) (g5 ++ taxonCloseChars) := by
    rw [hdrop]
    simpa [List.append_assoc] using hcs0
  rcases scanLits_complete _ _ _ hcs with ⟨r, hscan, hsuf⟩
  have hclose : taxonCloseChars.isSuffixOf r = true := by
    rw [List.isSuffixOf_iff_suffix]
    exact (List.suffix_append g5 taxonCloseChars).trans hsuf
  unfold islCore
  rw [hnl, hpre, hscan]
  simpa using hclose

/-- C6 (amended): `is_species_link(text)` returns true if and only if `text`,
after stripping one optional trailing newline, is newline-free, starts with
`<taxon genus="`, ends with `</taxon>`, and contains the markers
`" species="`, `" sub-prefix="`, `" sub-species="`, `">` in order with
arbitrary filler between them — the language of the source's regex, whose
greedy `.*` gaps place no constraint on what stands between the markers, so
in particular a concatenation of two structured links is also accepted
(rather than exactly one structured link as originally claimed). -/
theorem c6_amended_recognizer (text : String) :
    is_species_link text = true ↔ RegexLang text.data := by
  unfold is_species_link RegexLang
  constructor
  · intro h
    by_cases hl : text.data.getLast? = some '\n'
    · rw [if_pos hl] at h
      rcases islCore_sound h with ⟨hnl, hdec⟩
      refine ⟨text.data.dropLast, Or.inr ?_, hnl, hdec⟩
      have hne : text.data ≠ [] := by
        intro h0
        rw [h0] at hl
        cases hl
      have hlast : text.data.getLast hne = '\n' := by
        have := List.getLast?_eq_getLast text.data hne
        rw [this] at hl
        exact (Option.some.injEq _ _).mp hl
      conv_lhs => rw [← List.dropLast_concat_getLast hne]
      rw [hlast]
    · rw [if_neg hl] at h
      rcases islCore_sound h with ⟨hnl, hdec⟩
      exact ⟨text.data, Or.inl rfl, hnl, hdec⟩
  · rintro ⟨core, hcor, hnl, hdec⟩
    rcases hcor with h | h
    · rw [h]
      have hlast : core.getLast? = some '>' := by
        rcases hdec with ⟨g1, g2, g3, g4, g5, hcore⟩
        rw [hcore, List.getLast?_append]
        rfl
      rw [if_neg (by simp [hlast])]
      exact islCore_complete hnl hdec
    · rw [h]
      rw [if_pos (List.getLast?_concat core), List.dropLast_concat]
      exact islCore_complete hnl hdec

theorem titleOne_length (sl : List String) (g : List GDict) :
    (titleOne sl g).length = g.length + 1 := by
  unfold titleOne
  have h : ∀ (l : List String) (acc : List GDict),
      (l.foldl
        (fun acc line =>
          if lineHasSpace line then
            acc.set (acc.length - 1) (recordLineBody ((acc.getLast?).getD []) line)
          else acc)
        acc).length = acc.length := by
    intro l
    induction l with
    | nil => intro acc; rfl
    | cons x xs ih =>
      intro acc
      simp only [List.foldl_cons]
      by_cases hx : lineHasSpace x = true
      · rw [if_pos hx, ih, List.length_set]
      · rw [if_neg hx, ih]
  rw [h]
  simp

theorem titlesLoop_trace (sl : List String) :
    ∀ (n : Nat) (g : List GDict), (titlesLoop sl n g).2 = List.range' g.length n := by
  intro n
  induction n with
  | zero => intro g; rfl
  | succ m ih =>
    intro g
    unfold titlesLoop
    cases hp : titlesLoop sl m (titleOne sl g) with
    | mk gf tr =>
      simp only [hp]
      have htr : tr = List.range' (titleOne sl g).length m := by
        have h2 := ih (titleOne sl g)
        rw [hp] at h2
        exact h2
      rw [List.range'_succ, htr, titleOne_length]

theorem abstractsLoop_trace (sl : List String) :
    ∀ (n : Nat) (g : List GDict) (j : Nat) (r : List GDict × List Nat),
      abstractsLoop sl j n g = Except.ok r → r.2 = List.replicate n j := by
  intro n
  induction n with
  | zero =>
    intro g j r h
    cases h
    rfl
  | succ m ih =>
    intro g j r h
    unfold abstractsLoop at h
    cases h1 : abstractOne sl j g with
    | error e =>
      simp only [h1] at h
      exact Except.noConfusion h
    | ok g1 =>
      simp only [h1] at h
      cases h2 : abstractsLoop sl j m g1 with
      | error e =>
        simp only [h2] at h
        exact Except.noConfusion h
      | ok p =>
        obtain ⟨gf, tr⟩ := p
        simp only [h2] at h
        cases h
        have htr := ih g1 j (gf, tr) h2
        show j :: tr = List.replicate (m + 1) j
        rw [List.replicate_succ]
        exact congrArg (List.cons j) htr

/-- C2 (counterexample): on a document with one title and two abstracts and
the species list `["Brassica"]`, both abstract blocks read and write the
`GenusIndex` at position 0 of `genus_to_species` — the very dict the title
block created — as the access trace `[0, 0]` shows; so two distinct
abstracts do share one `GenusIndex`, contradicting the claim that the index
is never shared between two distinct blocks. -/
theorem c2_counterexample_shared_index :
    genusStateRun ["Brassica"] 1 2 = Except.ok ([[]], [0], [0, 0]) := rfl

/-- C2 (amended): each title block creates its own fresh `GenusIndex`
(appended at position `|g|`, so the per-title access positions are the
distinct consecutive indices `range' |g| n`), but abstract blocks never
create one: `j` is set to 0 before the abstract loop and never incremented,
so every abstract reads and writes the `GenusIndex` at position 0 — the one
created and populated by the first title — and all abstracts share it. -/
theorem c2_amended_genus_index_sharing :
    (∀ (sl : List String) (n : Nat) (g : List GDict),
        (titlesLoop sl n g).2 = List.range' g.length n) ∧
    (∀ (sl : List String) (n : Nat) (g : List GDict) (r : List GDict × List Nat),
        abstractsLoop sl 0 n g = Except.ok r → r.2 = List.replicate n 0) :=
  ⟨titlesLoop_trace, fun sl n g r h => abstractsLoop_trace sl n g 0 r h⟩

theorem c2_amended_genus_index_sharing_witness :
    ([0, 0] : List Nat) = List.replicate 2 0 :=
  c2_amended_genus_index_sharing.2 ["Brassica"] 2 [[]] ([[]], [0, 0]) rfl

theorem abstractSpeciesFold_nil_err (sl : List String) (h : sl.any lineHasSpace = true) :
    abstractSpeciesFold sl 0 [] = Except.error PyErr.indexErr := by
  induction sl with
  | nil => cases h
  | cons l ls ih =>
    unfold abstractSpeciesFold
    simp only [List.foldlM_cons]
    by_cases hl : lineHasSpace l = true
    · rw [if_pos hl]
      rfl
    · rw [if_neg hl]
      have hl2 : lineHasSpace l = false := by
        cases hq : lineHasSpace l
        · rfl
        · exact absurd hq hl
      have hany : ls.any lineHasSpace = true := by
        simpa [List.any_cons, hl2] using h
      exact ih hany

/-- C3: on a document with at least one abstract and zero titles, and a
species list with at least one line containing an internal space,
`insert_species_links` raises `IndexError` (`genus_to_species[0]` on an
empty list, line 135/140) instead of returning the abstract with markup
spliced in: the `genus_to_species` state machine of the run returns the
error before any text is rewritten, since the dict access of the first
filtered species line precedes all matching for that line. -/
theorem c3_no_title_index_error (sl : List String) (nA : Nat) (h1 : 0 < nA)
    (h2 : sl.any lineHasSpace = true) :
    genusStateRun sl 0 nA = Except.error PyErr.indexErr := by
  obtain ⟨m, rfl⟩ : ∃ m, nA = m + 1 := ⟨nA - 1, by omega⟩
  have habs : abstractsLoop sl 0 (m + 1) [] = Except.error PyErr.indexErr := by
    unfold abstractsLoop
    have hone : abstractOne sl 0 [] = Except.error PyErr.indexErr := by
      unfold abstractOne
      rw [abstractSpeciesFold_nil_err sl h2]
    rw [hone]
  unfold genusStateRun
  have h0 : (titlesLoop sl 0 []).1 = [] := rfl
  rw [h0, habs]

theorem c3_no_title_index_error_witness :
    genusStateRun ["Brassica oleracea"] 0 1 = Except.error PyErr.indexErr :=
  c3_no_title_index_error ["Brassica oleracea"] 1 (by decide) (by decide)

/-- C10: every input whose `split()` gives exactly three tokens with middle
token `sp.` or `spp.` falls through all branches of `get_species_link`: the
three-token arm only acts when the middle token is not a rank marker, and no
later arm matches, so the input is returned unchanged and no error is
raised. -/
theorem c10_three_token_rank_marker_unchanged (link a b c : String)
    (hsplit : pySplitWS link = [a, b, c]) (hb : b = "sp." ∨ b = "spp.") :
    get_species_link link = link := by
  unfold get_species_link linkDispatch
  rw [hsplit]
  rcases hb with hb | hb <;> subst hb <;> simp

theorem c10_three_token_rank_marker_unchanged_witness :
    get_species_link "Brassica sp. x" = "Brassica sp. x" :=
  c10_three_token_rank_marker_unchanged "Brassica sp. x" "Brassica" "sp." "x"
    (by decide) (Or.inl rfl)

/-- C7 (counterexample): the middle token `"xaby"` of `["ab", "xaby", "c"]`
is neither `sp.`/`spp.` nor parenthetical, yet `formatLink` does not produce
the four-token shape with an empty rank-prefix: `is_enclosed_match "ab"
"xaby"` holds (the check requires only length `|genus|+2` and a
case-insensitive middle, not parentheses), so the parenthetical-subgenus
branch fires and the species attribute becomes `"ab"` instead of
`"xaby"`. -/
theorem c7_counterexample_enclosed_match :
    (¬"xaby" = "sp." ∧ ¬"xaby" = "spp." ∧ is_parenthetical "xaby" = false ∧
      pySplitWS "ab xaby c" = ["ab", "xaby", "c"]) ∧
    get_species_link "ab xaby c" =
      "<taxon genus=\"ab\" species=\"ab\" sub-prefix=\"\" sub-species=\"c\"><sp>ab</sp> <sp>xaby</sp> <sp>c</sp></taxon>" ∧
    ¬get_species_link "ab xaby c" =
      "<taxon genus=\"ab\" species=\"xaby\" sub-prefix=\"\" sub-species=\"c\"><sp>ab</sp> <sp>xaby</sp> <sp>c</sp></taxon>" := by
  exact ⟨⟨by decide, by decide, by decide, by decide⟩, by rfl, by decide⟩

theorem pyReplaceDD_cons_ne (c : Char) (l : List Char) (hc : c ≠ ' ') :
    pyReplaceDD (c :: l) = c :: pyReplaceDD l := by
  cases l with
  | nil => rfl
  | cons d r =>
    show (if c = ' ' ∧ d = ' ' then ' ' :: pyReplaceDD r else c :: pyReplaceDD (d :: r)) =
      c :: pyReplaceDD (d :: r)
    rw [if_neg (fun h => hc h.1)]

theorem pyReplaceDD_space_cons (c : Char) (l : List Char) (hc : c ≠ ' ') :
    pyReplaceDD (' ' :: c :: l) = ' ' :: pyReplaceDD (c :: l) := by
  show (if (' ' : Char) = ' ' ∧ c = ' ' then ' ' :: pyReplaceDD l
    else ' ' :: pyReplaceDD (c :: l)) = ' ' :: pyReplaceDD (c :: l)
  rw [if_neg (fun h => hc h.2)]

theorem pyReplaceDD_dd (l : List Char) :
    pyReplaceDD (' ' :: ' ' :: l) = ' ' :: pyReplaceDD l := by
  show (if (' ' : Char) = ' ' ∧ (' ' : Char) = ' ' then ' ' :: pyReplaceDD l
    else ' ' :: pyReplaceDD (' ' :: l)) = ' ' :: pyReplaceDD l
  rw [if_pos ⟨rfl, rfl⟩]

theorem pyReplaceDD_of_noDD : ∀ (xs : List Char),
    noDoubleSpace xs = true → pyReplaceDD xs = xs := by
  intro xs
  induction xs with
  | nil => intro h; rfl
  | cons c rest ih =>
    intro h
    cases rest with
    | nil => rfl
    | cons c2 r2 =>
      have h2 : noDoubleSpace (c2 :: r2) = true := by
        have hsplit : (!(c == ' ' && c2 == ' ') && noDoubleSpace (c2 :: r2)) = true := h
        exact (Bool.and_eq_true_iff.mp hsplit).2
      have h1 : ¬(c = ' ' ∧ c2 = ' ') := by
        intro hcc
        have hsplit : (!(c == ' ' && c2 == ' ') && noDoubleSpace (c2 :: r2)) = true := h
        have := (Bool.and_eq_true_iff.mp hsplit).1
        rw [hcc.1, hcc.2] at this
        simp at this
      show (if c = ' ' ∧ c2 = ' ' then ' ' :: pyReplaceDD r2
        else c :: pyReplaceDD (c2 :: r2)) = c :: c2 :: r2
      rw [if_neg h1, ih h2]

theorem headq_ne_space_of_spaceFree (xs : List Char) (h : ∀ c ∈ xs, c ≠ ' ') :
    xs.head? ≠ some ' ' := by
  cases xs with
  | nil => intro hc; cases hc
  | cons c r =>
    intro hc
    exact h c (List.mem_cons_self c r) ((Option.some.injEq _ _).mp hc)

theorem noDD_of_spaceFree : ∀ (xs : List Char), (∀ c ∈ xs, c ≠ ' ') →
    noDoubleSpace xs = true := by
  intro xs
  induction xs with
  | nil => intro h; rfl
  | cons c r ih =>
    intro h
    cases r with
    | nil => rfl
    | cons c2 r2 =>
      show (!(c == ' ' && c2 == ' ') && noDoubleSpace (c2 :: r2)) = true
      have hc : (c == ' ') = false := by
        simp [h c (List.mem_cons_self c _)]
      rw [hc, ih (fun d hd => h d (List.mem_cons_of_mem c hd))]
      rfl

theorem noDD_append : ∀ (xs ys : List Char), noDoubleSpace xs = true →
    noDoubleSpace ys = true → ys.head? ≠ some ' ' →
    noDoubleSpace (xs ++ ys) = true := by
  intro xs
  induction xs with
  | nil =>
    intro ys _ hy _
    exact hy
  | cons c xs' ih =>
    intro ys hx hy hhy
    cases xs' with
    | nil =>
      cases ys with
      | nil => rfl
      | cons d r =>
        have hd : (d == ' ') = false := by
          cases hdq : d == ' '
          · rfl
          · have hd2 : (d :: r).head? = some ' ' := by
              rw [show d = ' ' from beq_iff_eq.mp hdq]
              rfl
            exact absurd hd2 hhy
        show (!(c == ' ' && d == ' ') && noDoubleSpace (d :: r)) = true
        rw [hd, hy]
        simp
    | cons c2 r2 =>
      have hsplit : (!(c == ' ' && c2 == ' ') && noDoubleSpace (c2 :: r2)) = true := hx
      obtain ⟨hx1, hx2⟩ := Bool.and_eq_true_iff.mp hsplit
      show (!(c == ' ' && c2 == ' ') && noDoubleSpace (c2 :: (r2 ++ ys))) = true
      have htail := ih ys hx2 hy hhy
      rw [hx1]
      exact htail

theorem pyReplaceDD_collapse : ∀ (A B : List Char), noDoubleSpace A = true →
    A.getLast? ≠ some ' ' → B.head? ≠ some ' ' → noDoubleSpace B = true →
    pyReplaceDD (A ++ ' ' :: ' ' :: B) = A ++ ' ' :: B := by
  intro A
  induction A with
  | nil =>
    intro B _ _ hhB hnB
    show pyReplaceDD (' ' :: ' ' :: B) = ' ' :: B
    rw [pyReplaceDD_dd, pyReplaceDD_of_noDD B hnB]
  | cons c A' ih =>
    intro B hA hlast hhB hnB
    cases A' with
    | nil =>
      have hc : c ≠ ' ' := by
        intro hc
        exact hlast (by simp [hc])
      show pyReplaceDD (c :: (' ' :: ' ' :: B)) = c :: (' ' :: B)
      rw [pyReplaceDD_cons_ne c _ hc, pyReplaceDD_dd, pyReplaceDD_of_noDD B hnB]
    | cons c2 A'' =>
      have hsplit : (!(c == ' ' && c2 == ' ') && noDoubleSpace (c2 :: A'')) = true := hA
      obtain ⟨h1, h2⟩ := Bool.and_eq_true_iff.mp hsplit
      have hlast' : (c2 :: A'').getLast? ≠ some ' ' := by
        intro hq
        apply hlast
        rw [List.getLast?_cons_cons]
        exact hq
      have hih : pyReplaceDD (c2 :: (A'' ++ ' ' :: ' ' :: B)) =
          c2 :: (A'' ++ ' ' :: B) := ih B h2 hlast' hhB hnB
      by_cases hc : c = ' '
      · have hc2 : c2 ≠ ' ' := by
          intro hc2
          rw [hc, hc2] at h1
          simp at h1
        subst hc
        show pyReplaceDD (' ' :: c2 :: (A'' ++ ' ' :: ' ' :: B)) =
          ' ' :: c2 :: (A'' ++ ' ' :: B)
        rw [pyReplaceDD_space_cons c2 _ hc2, hih]
      · show pyReplaceDD (c :: c2 :: (A'' ++ ' ' :: ' ' :: B)) =
          c :: c2 :: (A'' ++ ' ' :: B)
        rw [pyReplaceDD_cons_ne c _ hc, hih]

theorem string_data_append (a b : String) : (a ++ b).data = a.data ++ b.data := rfl

/-- C7 (amended): for a 3-token input whose middle token is not `sp.`/`spp.`,
not parenthetical, and also not an enclosed match of the first token (the
source's `is_enclosed_match` accepts any single enclosing characters, not
just parentheses — the extra exclusion the counterexample forces),
`formatLink` produces the 4-token shape with an empty rank-prefix attribute
and the double space left by the empty rank word collapsed: all three tokens
appear as name-tokens separated by single spaces.  Tokens produced by
`split()` never contain spaces, which the space-freeness hypotheses
record. -/
theorem c7_amended_three_token (link g s ss : String)
    (h1a : ¬s = "sp.") (h1b : ¬s = "spp.")
    (h2 : is_enclosed_match g s = false)
    (h3 : is_parenthetical s = false)
    (hg : ∀ c ∈ g.data, c ≠ ' ') (hs : ∀ c ∈ s.data, c ≠ ' ')
    (hss : ∀ c ∈ ss.data, c ≠ ' ') :
    linkDispatch link [g, s, ss] =
      "<taxon genus=\"" ++ g ++ "\" species=\"" ++ s ++
        "\" sub-prefix=\"\" sub-species=\"" ++ ss ++ "\"><sp>" ++ g ++ "</sp> <sp>" ++ s ++
        "</sp> <sp>" ++ ss ++ "</sp></taxon>" := by
  have hgh := headq_ne_space_of_spaceFree g.data hg
  have hsh := headq_ne_space_of_spaceFree s.data hs
  have hssh := headq_ne_space_of_spaceFree ss.data hss
  have hd : linkDispatch link [g, s, ss] = genus_species_subspecies [g, s, ss] := by
    unfold linkDispatch
    simp [h1a, h1b, h2, h3, List.getD]
  have hcall : genus_species_subspecies [g, s, ss] =
      String.mk (pyReplaceDD (("<taxon genus=\"" ++ g ++ "\" species=\"" ++ s ++
        "\" sub-prefix=\"" ++ "" ++ "\" sub-species=\"" ++ ss ++ "\"><sp>" ++ g ++
        "</sp> <sp>" ++ s ++ "</sp> " ++ "" ++ " <sp>" ++ ss ++
        "</sp></taxon>").data)) := rfl
  have e1 : "</sp> ".data = "</sp>".data ++ [' '] := rfl
  have e2 : " <sp>".data = ' ' :: "<sp>".data := rfl
  have hdata : ("<taxon genus=\"" ++ g ++ "\" species=\"" ++ s ++
      "\" sub-prefix=\"" ++ "" ++ "\" sub-species=\"" ++ ss ++ "\"><sp>" ++ g ++
      "</sp> <sp>" ++ s ++ "</sp> " ++ "" ++ " <sp>" ++ ss ++ "</sp></taxon>").data =
      ("<taxon genus=\"".data ++ g.data ++ "\" species=\"".data ++ s.data ++
        "\" sub-prefix=\"".data ++ "\" sub-species=\"".data ++ ss.data ++ "\"><sp>".data ++
        g.data ++ "</sp> <sp>".data ++ s.data ++ "</sp>".data) ++
      ' ' :: ' ' :: ("<sp>".data ++ ss.data ++ "</sp></taxon>".data) := by
    simp [string_data_append, e1, e2, List.append_assoc]
  have n1 : noDoubleSpace ("<taxon genus=\"".data ++ g.data) = true :=
    noDD_append _ _ (by decide) (noDD_of_spaceFree _ hg) hgh
  have n2 := noDD_append _ _ n1
    (by decide : noDoubleSpace "\" species=\"".data = true) (by decide)
  have n3 := noDD_append _ _ n2 (noDD_of_spaceFree _ hs) hsh
  have n4 := noDD_append _ _ n3
    (by decide : noDoubleSpace "\" sub-prefix=\"".data = true) (by decide)
  have n5 := noDD_append _ _ n4
    (by decide : noDoubleSpace "\" sub-species=\"".data = true) (by decide)
  have n6 := noDD_append _ _ n5 (noDD_of_spaceFree _ hss) hssh
  have n7 := noDD_append _ _ n6
    (by decide : noDoubleSpace "\"><sp>".data = true) (by decide)
  have n8 := noDD_append _ _ n7 (noDD_of_spaceFree _ hg) hgh
  have n9 := noDD_append _ _ n8
    (by decide : noDoubleSpace "</sp> <sp>".data = true) (by decide)
  have n10 := noDD_append _ _ n9 (noDD_of_spaceFree _ hs) hsh
  have hA := noDD_append _ _ n10
    (by decide : noDoubleSpace "</sp>".data = true) (by decide)
  have b1 : noDoubleSpace ("<sp>".data ++ ss.data) = true :=
    noDD_append _ _ (by decide) (noDD_of_spaceFree _ hss) hssh
  have hB := noDD_append _ _ b1
    (by decide : noDoubleSpace "</sp></taxon>".data = true) (by decide)
  have hAlastEq : (("<taxon genus=\"".data ++ g.data ++ "\" species=\"".data ++ s.data ++
      "\" sub-prefix=\"".data ++ "\" sub-species=\"".data ++ ss.data ++ "\"><sp>".data ++
      g.data ++ "</sp> <sp>".data ++ s.data ++ "</sp>".data)).getLast? = some '>' := by
    rw [List.getLast?_append]
    rfl
  have hAlast : (("<taxon genus=\"".data ++ g.data ++ "\" species=\"".data ++ s.data ++
      "\" sub-prefix=\"".data ++ "\" sub-species=\"".data ++ ss.data ++ "\"><sp>".data ++
      g.data ++ "</sp> <sp>".data ++ s.data ++ "</sp>".data)).getLast? ≠ some ' ' := by
    rw [hAlastEq]
    decide
  have hBhead : (("<sp>".data ++ ss.data ++ "</sp></taxon>".data)).head? ≠ some ' ' := by
    have hh : (("<sp>".data ++ ss.data ++ "</sp></taxon>".data)).head? = some '<' := rfl
    rw [hh]
    decide
  have e4 : "\" sub-prefix=\"\" sub-species=\"".data =
      "\" sub-prefix=\"".data ++ "\" sub-species=\"".data := rfl
  have e3 : "</sp> <sp>".data = "</sp>".data ++ (' ' :: "<sp>".data) := rfl
  have htarget : ("<taxon genus=\"" ++ g ++ "\" species=\"" ++ s ++
      "\" sub-prefix=\"\" sub-species=\"" ++ ss ++ "\"><sp>" ++ g ++ "</sp> <sp>" ++ s ++
      "</sp> <sp>" ++ ss ++ "</sp></taxon>").data =
      ("<taxon genus=\"".data ++ g.data ++ "\" species=\"".data ++ s.data ++
        "\" sub-prefix=\"".data ++ "\" sub-species=\"".data ++ ss.data ++ "\"><sp>".data ++
        g.data ++ "</sp> <sp>".data ++ s.data ++ "</sp>".data) ++
      ' ' :: ("<sp>".data ++ ss.data ++ "</sp></taxon>".data) := by
    simp [string_data_append, e3, e4, List.append_assoc]
  rw [hd, hcall, hdata, pyReplaceDD_collapse _ _ hA hAlast hBhead hB, ← htarget]

theorem c7_amended_three_token_witness :
    linkDispatch "Brassica oleracea capitata" ["Brassica", "oleracea", "capitata"] =
      "<taxon genus=\"" ++ "Brassica" ++ "\" species=\"" ++ "oleracea" ++
        "\" sub-prefix=\"\" sub-species=\"" ++ "capitata" ++ "\"><sp>" ++ "Brassica" ++
        "</sp> <sp>" ++ "oleracea" ++ "</sp> <sp>" ++ "capitata" ++ "</sp></taxon>" :=
  c7_amended_three_token "Brassica oleracea capitata" "Brassica" "oleracea" "capitata"
    (by decide) (by decide) (by decide) (by decide) (by decide) (by decide) (by decide)

theorem spansOK_mono (len : Nat) : ∀ (l : List (Nat × Nat)) (lo lo2 : Nat), lo2 ≤ lo →
    spansOK lo len l = true → spansOK lo2 len l = true := by
  intro l
  cases l with
  | nil => intro lo lo2 h1 h2; rfl
  | cons sp rest =>
    intro lo lo2 h1 h2
    simp only [spansOK, Bool.and_eq_true, decide_eq_true_eq] at h2 ⊢
    obtain ⟨⟨⟨ha, hb⟩, hc⟩, hd⟩ := h2
    exact ⟨⟨⟨by omega, hb⟩, hc⟩, hd⟩

theorem countSpaces_le : ∀ (l : List Char), countSpaces l ≤ l.length := by
  intro l
  induction l with
  | nil => exact Nat.le_refl 0
  | cons c r ih =>
    show (if c = ' ' then countSpaces r + 1 else 0) ≤ r.length + 1
    by_cases hc : c = ' '
    · rw [if_pos hc]; omega
    · rw [if_neg hc]; omega

theorem matchesPrefixCI_length : ∀ (p t : List Char),
    matchesPrefixCI p t = true → p.length ≤ t.length := by
  intro p
  induction p with
  | nil => intro t _; simp
  | cons x p' ih =>
    intro t h
    cases t with
    | nil => cases h
    | cons c cs =>
      have h2 : matchesPrefixCI p' cs = true := (Bool.and_eq_true_iff.mp h).2
      have := ih cs h2
      simp only [List.length_cons]
      omega

theorem sepLen_le (t1 : List Char) : sepLen t1 ≤ t1.length := by
  unfold sepLen
  have hk1 := countSpaces_le t1
  by_cases hnl : (t1.drop (countSpaces t1)).head? = some '\n'
  · rw [if_pos hnl]
    have hne : t1.drop (countSpaces t1) ≠ [] := by
      intro h0
      rw [h0] at hnl
      cases hnl
    have hpos : 0 < (t1.drop (countSpaces t1)).length := List.length_pos.mpr hne
    have hk2 := countSpaces_le ((t1.drop (countSpaces t1)).drop 1)
    simp only [List.length_drop] at hpos hk2 ⊢
    omega
  · rw [if_neg hnl]
    have hk2 := countSpaces_le ((t1.drop (countSpaces t1)).drop 0)
    simp only [List.length_drop] at hk2
    omega

theorem matchLen_le (g e t : List Char) (L : Nat) (h : matchLen g e t = some L) :
    L ≤ t.length := by
  unfold matchLen at h
  by_cases h1 : matchesPrefixCI g t = true
  · rw [if_pos h1] at h
    by_cases h2 : matchesPrefixCI e ((t.drop g.length).drop (sepLen (t.drop g.length))) = true
    · rw [if_pos h2] at h
      have hL : g.length + sepLen (t.drop g.length) + e.length = L :=
        (Option.some.injEq _ _).mp h
      have hg := matchesPrefixCI_length g t h1
      have he := matchesPrefixCI_length e _ h2
      have hsep := sepLen_le (t.drop g.length)
      simp only [List.length_drop] at he hsep
      omega
    · rw [if_neg h2] at h
      cases h
  · rw [if_neg h1] at h
    cases h

theorem findMatchesAux_ok (g e : List Char) :
    ∀ (fuel : Nat) (t : List Char) (pos : Nat), t.length ≤ fuel →
      spansOK pos (pos + t.length) (findMatchesAux g e fuel t pos) = true := by
  intro fuel
  induction fuel with
  | zero =>
    intro t pos ht
    have : t = [] := List.length_eq_zero.mp (Nat.le_zero.mp ht)
    subst this
    rfl
  | succ m ih =>
    intro t pos ht
    cases t with
    | nil => rfl
    | cons c rest =>
      have hfuel : rest.length ≤ m := by
        simp only [List.length_cons] at ht
        omega
      show spansOK pos (pos + (rest.length + 1))
        (findMatchesAux g e (m + 1) (c :: rest) pos) = true
      unfold findMatchesAux
      cases hm : matchLen g e (c :: rest) with
      | none =>
        have hrec := ih rest (pos + 1) hfuel
        have harith : pos + 1 + rest.length = pos + (rest.length + 1) := by omega
        rw [harith] at hrec
        exact spansOK_mono _ _ _ _ (Nat.le_succ pos) hrec
      | some L =>
        show spansOK pos (pos + (rest.length + 1))
          (if L = 0 then (pos, pos) :: findMatchesAux g e m rest (pos + 1)
           else (pos, pos + L) :: findMatchesAux g e m ((c :: rest).drop L) (pos + L)) = true
        by_cases hL : L = 0
        · rw [if_pos hL]
          simp only [spansOK, Bool.and_eq_true, decide_eq_true_eq]
          have hrec := ih rest (pos + 1) hfuel
          have harith : pos + 1 + rest.length = pos + (rest.length + 1) := by omega
          rw [harith] at hrec
          exact ⟨⟨⟨Nat.le_refl pos, Nat.le_refl pos⟩, by omega⟩,
            spansOK_mono _ _ _ _ (Nat.le_succ pos) hrec⟩
        · rw [if_neg hL]
          have hlen := matchLen_le g e (c :: rest) L hm
          simp only [List.length_cons] at hlen
          have hdroplen : ((c :: rest).drop L).length = rest.length + 1 - L := by
            simp [List.length_drop]
          have hfuel2 : ((c :: rest).drop L).length ≤ m := by
            rw [hdroplen]
            omega
          have hrec := ih ((c :: rest).drop L) (pos + L) hfuel2
          rw [hdroplen] at hrec
          have harith : pos + L + (rest.length + 1 - L) = pos + (rest.length + 1) := by
            omega
          rw [harith] at hrec
          simp only [spansOK, Bool.and_eq_true, decide_eq_true_eq]
          exact ⟨⟨⟨Nat.le_refl pos, by omega⟩, by omega⟩, hrec⟩

theorem findMatches_ok (g e : String) (t : List Char) :
    spansOK 0 t.length (findMatches g e t) = true := by
  have := findMatchesAux_ok g.data e.data t.length t 0 (Nat.le_refl _)
  simpa using this

theorem interleaveFrom_shift (repl : Nat → List Char → List Char) (i : Nat)
    (t : List Char) (e : Nat) (he : e ≤ t.length) :
    ∀ (rest : List (Nat × Nat)), spansOK e t.length rest = true →
      interleaveFrom repl i 0 t rest = t.take e ++ interleaveFrom repl i e t rest := by
  intro rest h
  cases rest with
  | nil =>
    show t.drop 0 = t.take e ++ t.drop e
    rw [List.drop_zero, List.take_append_drop]
  | cons sp rest2 =>
    simp only [spansOK, Bool.and_eq_true, decide_eq_true_eq] at h
    obtain ⟨⟨⟨hs1, _⟩, _⟩, _⟩ := h
    show sliceL t 0 sp.1 ++ _ ++ _ = t.take e ++ (sliceL t e sp.1 ++ _ ++ _)
    have hsplit : sliceL t 0 sp.1 = t.take e ++ sliceL t e sp.1 := by
      unfold sliceL
      rw [List.drop_zero, Nat.sub_zero]
      have harith : sp.1 = e + (sp.1 - e) := by omega
      rw [harith, List.take_add]
      have harith2 : e + (sp.1 - e) - e = sp.1 - e := by omega
      rw [harith2]
    rw [hsplit]
    simp [List.append_assoc]

theorem replaceLoop_eq_interleaveFrom (repl : Nat → List Char → List Char) :
    ∀ (spans : List (Nat × Nat)) (i : Nat) (t : List Char),
      spansOK 0 t.length spans = true →
      replaceLoop repl i spans t = interleaveFrom repl i 0 t spans := by
  intro spans
  induction spans with
  | nil => intro i t _; rfl
  | cons sp rest ih =>
    intro i t h
    simp only [spansOK, Bool.and_eq_true, decide_eq_true_eq] at h
    obtain ⟨⟨⟨h0s, hse⟩, hel⟩, hrest⟩ := h
    have hIH : replaceLoop repl (i + 1) rest t = interleaveFrom repl (i + 1) 0 t rest :=
      ih (i + 1) t (spansOK_mono _ _ _ _ (Nat.zero_le sp.2) hrest)
    show spliceStep repl i sp (replaceLoop repl (i + 1) rest t) =
      sliceL t 0 sp.1 ++ repl i (sliceL t sp.1 sp.2) ++
        interleaveFrom repl (i + 1) sp.2 t rest
    rw [hIH, interleaveFrom_shift repl (i + 1) t sp.2 hel rest hrest]
    unfold spliceStep
    have hlen : (t.take sp.2).length = sp.2 := by
      simp [List.length_take]
      omega
    have htake : (t.take sp.2 ++ interleaveFrom repl (i + 1) sp.2 t rest).take sp.1 =
        sliceL t 0 sp.1 := by
      rw [List.take_append_eq_append_take, hlen]
      have h1 : sp.1 - sp.2 = 0 := by omega
      rw [h1, List.take_zero, List.append_nil, List.take_take]
      unfold sliceL
      rw [List.drop_zero, Nat.sub_zero]
      congr 1
      omega
    have hdrop : (t.take sp.2 ++ interleaveFrom repl (i + 1) sp.2 t rest).drop sp.2 =
        interleaveFrom repl (i + 1) sp.2 t rest := by
      rw [List.drop_append_eq_append_drop, hlen]
      have h1 : sp.2 - sp.2 = 0 := by omega
      rw [h1, List.drop_zero]
      have h2 : (t.take sp.2).drop sp.2 = [] := by
        rw [List.drop_take]
        simp
      rw [h2, List.nil_append]
    have hslice : sliceL (t.take sp.2 ++ interleaveFrom repl (i + 1) sp.2 t rest)
        sp.1 sp.2 = sliceL t sp.1 sp.2 := by
      unfold sliceL
      rw [List.drop_append_eq_append_drop, hlen]
      have h1 : sp.1 - sp.2 = 0 := by omega
      rw [h1, List.drop_zero, List.take_append_eq_append_take]
      have h2 : ((t.take sp.2).drop sp.1).length = sp.2 - sp.1 := by
        simp [List.length_drop, List.length_take]
        omega
      rw [h2]
      have h3 : sp.2 - sp.1 - (sp.2 - sp.1) = 0 := by omega
      rw [h3, List.take_zero, List.append_nil, List.drop_take]
      rw [List.take_of_length_le]
      rw [List.length_take]
      omega
    rw [htake, hslice, hdrop]

theorem interleaveFrom_congr (r1 r2 : Nat → List Char → List Char) (t : List Char) :
    ∀ (spans : List (Nat × Nat)) (i pos : Nat),
      (∀ (k : Nat) (sp : Nat × Nat), spans.get? k = some sp →
        r1 (i + k) (sliceL t sp.1 sp.2) = r2 (i + k) (sliceL t sp.1 sp.2)) →
      interleaveFrom r1 i pos t spans = interleaveFrom r2 i pos t spans := by
  intro spans
  induction spans with
  | nil => intro i pos _; rfl
  | cons sp rest ih =>
    intro i pos h
    show _ ++ r1 i _ ++ _ = _ ++ r2 i _ ++ _
    have h0 := h 0 sp rfl
    rw [Nat.add_zero] at h0
    have hrest : ∀ (k : Nat) (sp2 : Nat × Nat), rest.get? k = some sp2 →
        r1 (i + 1 + k) (sliceL t sp2.1 sp2.2) = r2 (i + 1 + k) (sliceL t sp2.1 sp2.2) := by
      intro k sp2 hk
      have := h (k + 1) sp2 hk
      rw [show i + (k + 1) = i + 1 + k by omega] at this
      exact this
    rw [h0, ih (i + 1) sp.2 hrest]

/-- C9: for every text and every batch of in-bounds, ascending,
non-overlapping spans, the right-to-left replacement loop (the source's
`text = text[:start] + replacement + text[end:]` applied for
`i = len(matches)-1, ..., 0`) yields exactly the original text with each
span's slice replaced: the characters outside all matched spans — the
`sliceL t pos sp.1` chunks and the final `t.drop pos` of `interleaveFrom` —
are byte-for-byte those of the original text. -/
theorem c9_frame_offset_safety (repl : Nat → List Char → List Char) (i : Nat)
    (t : List Char) (spans : List (Nat × Nat))
    (h : spansOK 0 t.length spans = true) :
    replaceLoop repl i spans t = interleaveFrom repl i 0 t spans :=
  replaceLoop_eq_interleaveFrom repl spans i t h

theorem c9_frame_offset_safety_witness :
    replaceLoop (fun _ _ => "XY".data) 0 [(1, 2), (4, 5)] "abcdef".data =
      interleaveFrom (fun _ _ => "XY".data) 0 0 "abcdef".data [(1, 2), (4, 5)] :=
  c9_frame_offset_safety (fun _ _ => "XY".data) 0 "abcdef".data [(1, 2), (4, 5)]
    (by decide)

/-- C5: a pseudospecies entry never produces a structured link: in both the
title and the abstract full-name pass, every matched occurrence — including
the first — is wrapped as plain italic emphasis around its normalized
text. -/
theorem c5_pseudospecies_all_italic (g e : String) (keys : List String)
    (t : List Char) :
    titleFullNamePass true g e t =
      interleaveFrom italicRepl 0 0 t (findMatches g e t) ∧
    abstractFullNamePass keys true g e t =
      interleaveFrom italicRepl 0 0 t (findMatches g e t) := by
  have hok := findMatches_ok g e t
  have h1 : titleRepl true = italicRepl := by
    funext i s
    simp [titleRepl, italicRepl]
  have h2 : abstractRepl keys true = italicRepl := by
    funext i s
    simp [abstractRepl, italicRepl]
  constructor
  · show replaceLoop (titleRepl true) 0 (findMatches g e t) t = _
    rw [h1]
    exact replaceLoop_eq_interleaveFrom _ _ _ _ hok
  · show replaceLoop (abstractRepl keys true) 0 (findMatches g e t) t = _
    rw [h2]
    exact replaceLoop_eq_interleaveFrom _ _ _ _ hok

/-- C4: for a non-pseudospecies entry whose genus and epithet are non-empty
and contain no blanks (as tokens of `split(' ')` from the species list), if
the text has two or more full-name occurrences, then after the entry's
full-name pass the leftmost occurrence is wrapped as a structured link and
every later occurrence as plain italic emphasis, in both the title and the
abstract context.  The hypotheses record that every occurrence is a genuine
two-word full-name occurrence (its normalized text contains the blank
between genus and epithet) and that the `genus_to_species` keys are single
tokens without spaces (as built by `recordLineBody`); under these the
abstract context's extra suppression check `spec not in genus_to_species[j]`
never fires. -/
theorem c4_first_match_links_rest_italic (g e : String) (keys : List String)
    (t : List Char)
    (hg : g.data ≠ [] ∧ ∀ c ∈ g.data, ¬c = ' ' ∧ ¬c = '\n')
    (he : e.data ≠ [] ∧ ∀ c ∈ e.data, ¬c = ' ' ∧ ¬c = '\n')
    (hkeys : ∀ k ∈ keys, ' ' ∉ k.data)
    (hms : ∀ sp ∈ findMatches g e t,
      ' ' ∈ (remove_blank_chars (String.mk (sliceL t sp.1 sp.2))).data)
    (hlen : 2 ≤ (findMatches g e t).length) :
    titleFullNamePass false g e t =
      interleaveFrom firstLinkRepl 0 0 t (findMatches g e t) ∧
    abstractFullNamePass keys false g e t =
      interleaveFrom firstLinkRepl 0 0 t (findMatches g e t) := by
  have hok := findMatches_ok g e t
  have h1 : titleRepl false = firstLinkRepl := by
    funext i s
    simp [titleRepl, firstLinkRepl]
  constructor
  · show replaceLoop (titleRepl false) 0 (findMatches g e t) t = _
    rw [h1]
    exact replaceLoop_eq_interleaveFrom _ _ _ _ hok
  · show replaceLoop (abstractRepl keys false) 0 (findMatches g e t) t = _
    rw [replaceLoop_eq_interleaveFrom _ _ _ _ hok]
    apply interleaveFrom_congr
    intro k sp hk
    have hmem : sp ∈ findMatches g e t := List.get?_mem hk
    have hspec := hms sp hmem
    cases k with
    | zero =>
      have hnc : keys.contains (remove_blank_chars (String.mk (sliceL t sp.1 sp.2))) =
          false := by
        cases hq : keys.contains (remove_blank_chars (String.mk (sliceL t sp.1 sp.2)))
        · rfl
        · have hmemk := List.mem_of_elem_eq_true hq
          exact absurd hspec (hkeys _ hmemk)
      show abstractRepl keys false 0 (sliceL t sp.1 sp.2) =
        firstLinkRepl 0 (sliceL t sp.1 sp.2)
      simp only [abstractRepl, firstLinkRepl, hnc]
      simp
    | succ k2 =>
      show abstractRepl keys false (0 + (k2 + 1)) (sliceL t sp.1 sp.2) =
        firstLinkRepl (0 + (k2 + 1)) (sliceL t sp.1 sp.2)
      simp [abstractRepl, firstLinkRepl]

theorem c4_first_match_links_rest_italic_witness :
    titleFullNamePass false "Brassica" "oleracea"
        "Brassica oleracea and Brassica oleracea".data =
      interleaveFrom firstLinkRepl 0 0 "Brassica oleracea and Brassica oleracea".data
        (findMatches "Brassica" "oleracea" "Brassica oleracea and Brassica oleracea".data) ∧
    abstractFullNamePass ["Brassica"] false "Brassica" "oleracea"
        "Brassica oleracea and Brassica oleracea".data =
      interleaveFrom firstLinkRepl 0 0 "Brassica oleracea and Brassica oleracea".data
        (findMatches "Brassica" "oleracea" "Brassica oleracea and Brassica oleracea".data) :=
  c4_first_match_links_rest_italic "Brassica" "oleracea" ["Brassica"]
    "Brassica oleracea and Brassica oleracea".data
    (by decide) (by decide) (by decide) (by decide) (by decide)
